import Mathlib

/-!
# Verification of the stock-management core

A shallow embedding of the state and the state-mutating operations of the
stock-management application (`App.tsx`, `POS.tsx`, `Dashboard.tsx`,
`SalesHistory.tsx`), together with proofs and refutations of the stated
properties.

Modelling conventions:
* JavaScript numbers that hold quantities/balances are modelled as `Int`;
  prices and money amounts as `Rat`.
* Timestamps (`new Date().toISOString()`) are abstracted as a `Nat` clock value
  passed to each operation; generated entity ids (`LOG-...`, `Date.now()`,
  `Math.random()`) carry no information used by any property and are omitted
  from ledger entries (sales, products and customers keep their `id` since the
  code matches on them).
* React `useState` state becomes an explicit `AppState` record; each handler
  becomes a function `AppState → AppState`.
* `Array.prototype.sort` (stable per the ECMAScript specification) is
  modelled by `List.mergeSort`.
-/

namespace SK

/-! ## Primitive string operations

JavaScript's `<`, `.toLowerCase()` and `.includes(...)` on strings are
modelled by structurally recursive functions over the character list of a
`String`, so that every definition in this file evaluates inside the kernel. -/

/-- JavaScript string `<`: lexicographic comparison of the code units. -/
def charsLt : List Char → List Char → Bool
  | [], [] => false
  | [], _ :: _ => true
  | _ :: _, [] => false
  | a :: as, b :: bs => a < b || (a == b && charsLt as bs)

/-- String `<` on the characters. -/
def strLt (a b : String) : Bool := charsLt a.data b.data

/-- The order used by JavaScript's default `sort()` on strings. -/
def strLe (a b : String) : Bool := !(strLt b a)

/-- `.toLowerCase()` (character-wise). -/
def lowerStr (s : String) : String := ⟨s.data.map Char.toLower⟩

/-- Whether `needle` is a prefix of the second list. -/
def isPrefixL : List Char → List Char → Bool
  | [], _ => true
  | _ :: _, [] => false
  | a :: as, b :: bs => a == b && isPrefixL as bs

/-- Whether `needle` occurs inside `hay` (an empty needle always does, as with
JavaScript `includes`). -/
def containsSub (needle : List Char) : List Char → Bool
  | [] => needle.isEmpty
  | b :: rest => isPrefixL needle (b :: rest) || containsSub needle rest

/-- `hay.includes(needle)`. -/
def strContains (hay needle : String) : Bool := containsSub needle.data hay.data

/-- `StockLog.type` in `types.ts`: 'RESTOCK' | 'SALE' | 'ADJUSTMENT' | 'INITIAL'. -/
inductive LogType where
  | RESTOCK
  | SALE
  | ADJUSTMENT
  | INITIAL
deriving DecidableEq

/-- `StockLog` from `types.ts` (the generated `id` string is omitted). -/
structure StockLog where
  typ : LogType
  amount : Int
  balance : Int
  timestamp : Nat
  reason : Option String := none
deriving DecidableEq

/-- `Product` from `types.ts`. `stockHistory` is most-recent-first, as in the code. -/
structure Product where
  id : String
  name : String
  sku : String
  category : String
  buyPrice : Rat
  marginPercent : Rat
  sellPrice : Rat
  stock : Int
  minStock : Int
  description : String
  lastRestocked : Nat
  stockHistory : List StockLog
deriving DecidableEq

/-- `Customer` from `types.ts`. -/
structure Customer where
  id : String
  name : String
  address : String
  phone : String
  email : Option String := none
deriving DecidableEq

/-- `SaleItem` from `types.ts`; `returnedQuantity` is an optional field. -/
structure SaleItem where
  productId : String
  name : String
  quantity : Int
  price : Rat
  total : Rat
  returnedQuantity : Option Int := none
deriving DecidableEq

/-- Payment methods of `Sale`. -/
inductive PaymentMethod where
  | Cash
  | Card
  | Transfer
deriving DecidableEq

/-- `Sale` from `types.ts`. -/
structure Sale where
  id : String
  timestamp : Nat
  customerName : Option String := none
  customerAddress : Option String := none
  customerPhone : Option String := none
  items : List SaleItem
  subtotal : Rat
  tax : Rat
  total : Rat
  paymentMethod : PaymentMethod
  processedBy : Option String := none
deriving DecidableEq

/-- `UserRole` from `types.ts`. -/
inductive UserRole where
  | ADMIN
  | SALESPERSON
deriving DecidableEq

/-- `User` from `types.ts`. -/
structure User where
  id : String
  username : String
  role : UserRole
  fullName : String
deriving DecidableEq

/-- The mutable application state held by the `App` component. -/
structure AppState where
  currentUser : Option User
  products : List Product
  sales : List Sale
  customers : List Customer
  categories : List String
deriving DecidableEq

/-- `const isAdmin = currentUser?.role === UserRole.ADMIN` in `App.tsx`. -/
def isAdmin (s : AppState) : Bool :=
  match s.currentUser with
  | some u => u.role == UserRole.ADMIN
  | none => false

/-- `[...xs].sort()` on strings: JavaScript default sort is a stable sort by
string comparison. -/
def jsSortStrings (l : List String) : List String :=
  l.mergeSort strLe

/-- `addCategory` in `App.tsx`. -/
def addCategory (name : String) (s : AppState) : AppState :=
  if !(isAdmin s) then s
  else if s.categories.contains name then s
  else { s with categories := jsSortStrings (s.categories ++ [name]) }

/-- `renameCategory` in `App.tsx`. -/
def renameCategory (oldName newName : String) (s : AppState) : AppState :=
  if !(isAdmin s) then s
  else if s.categories.contains newName then s
  else { s with
    categories := jsSortStrings (s.categories.map (fun c => if c == oldName then newName else c)),
    products := s.products.map (fun p =>
      if p.category == oldName then { p with category := newName } else p) }

/-- `deleteCategory` in `App.tsx`.  The second `setCategories` call checks the
pre-update `categories` for 'General' (a stale read in the source), which is
modelled faithfully. -/
def deleteCategory (name : String) (s : AppState) : AppState :=
  if !(isAdmin s) then s
  else
    let cats1 := s.categories.filter (fun c => c != name)
    let prods := s.products.map (fun p =>
      if p.category == name then { p with category := "General" } else p)
    if s.categories.contains "General" then
      { s with categories := cats1, products := prods }
    else
      { s with
        categories := jsSortStrings ("General" :: cats1.filter (fun c => c != name)),
        products := prods }

/-- `addProduct` in `App.tsx`: seeds the ledger with a single INITIAL movement. -/
def addProduct (p : Product) (ts : Nat) (s : AppState) : AppState :=
  if !(isAdmin s) then s
  else
    let initialLog : StockLog :=
      { typ := .INITIAL, amount := p.stock, balance := p.stock, timestamp := ts }
    let s1 := { s with products := s.products ++ [{ p with stockHistory := [initialLog] }] }
    if s.categories.contains p.category then s1 else addCategory p.category s1

/-- The per-product updater inside `updateProduct` in `App.tsx`. -/
def updateProductOne (updated : Product) (ts : Nat) (p : Product) : Product :=
  if p.id == updated.id then
    let history := p.stockHistory
    if updated.stock != p.stock then
      let log : StockLog :=
        { typ := .ADJUSTMENT, amount := updated.stock - p.stock, balance := updated.stock,
          timestamp := ts, reason := some "Manual Update" }
      { updated with stockHistory := log :: history }
    else
      { updated with stockHistory := history }
  else p

/-- `updateProduct` in `App.tsx`. -/
def updateProduct (updated : Product) (ts : Nat) (s : AppState) : AppState :=
  if !(isAdmin s) then s
  else
    let s1 := { s with products := s.products.map (updateProductOne updated ts) }
    if s.categories.contains updated.category then s1 else addCategory updated.category s1

/-- `Partial<Product>` as used by `bulkUpdateProducts`: any subset of fields. -/
structure ProductPatch where
  id : Option String := none
  name : Option String := none
  sku : Option String := none
  category : Option String := none
  buyPrice : Option Rat := none
  marginPercent : Option Rat := none
  sellPrice : Option Rat := none
  stock : Option Int := none
  minStock : Option Int := none
  description : Option String := none
  lastRestocked : Option Nat := none
  stockHistory : Option (List StockLog) := none
deriving DecidableEq

/-- The object spread `{ ...p, ...updates }`. -/
def applyPatch (u : ProductPatch) (p : Product) : Product :=
  { id := u.id.getD p.id
    name := u.name.getD p.name
    sku := u.sku.getD p.sku
    category := u.category.getD p.category
    buyPrice := u.buyPrice.getD p.buyPrice
    marginPercent := u.marginPercent.getD p.marginPercent
    sellPrice := u.sellPrice.getD p.sellPrice
    stock := u.stock.getD p.stock
    minStock := u.minStock.getD p.minStock
    description := u.description.getD p.description
    lastRestocked := u.lastRestocked.getD p.lastRestocked
    stockHistory := u.stockHistory.getD p.stockHistory }

/-- `bulkUpdateProducts` in `App.tsx`: spreads `updates` over every selected
product, with no ledger entry. -/
def bulkUpdateProducts (productIds : List String) (u : ProductPatch) (s : AppState) : AppState :=
  if !(isAdmin s) then s
  else { s with products := s.products.map (fun p =>
    if productIds.contains p.id then applyPatch u p else p) }

/-- The per-product updater inside `adjustStock` in `App.tsx`: clamps the new
stock at 0 but records the unclamped `amount` in the movement. -/
def adjustStockOne (id : String) (amount : Int) (reason : String) (ts : Nat)
    (p : Product) : Product :=
  if p.id == id then
    let newStock := max 0 (p.stock + amount)
    let log : StockLog :=
      { typ := .ADJUSTMENT, amount := amount, balance := newStock,
        timestamp := ts, reason := some reason }
    { p with stock := newStock, stockHistory := log :: p.stockHistory }
  else p

/-- `adjustStock` in `App.tsx`. -/
def adjustStock (id : String) (amount : Int) (reason : String) (ts : Nat)
    (s : AppState) : AppState :=
  if !(isAdmin s) then s
  else { s with products := s.products.map (adjustStockOne id amount reason ts) }

/-- `deleteProduct` in `App.tsx`. -/
def deleteProduct (id : String) (s : AppState) : AppState :=
  if !(isAdmin s) then s
  else { s with products := s.products.filter (fun p => p.id != id) }

/-- The per-product updater inside `completeSale` in `App.tsx`: the first sale
line whose `productId` matches is applied, with no stock check of any kind. -/
def saleLineUpdate (sale : Sale) (ts : Nat) (p : Product) : Product :=
  match sale.items.find? (fun item => item.productId == p.id) with
  | some soldItem =>
      let newStock := p.stock - soldItem.quantity
      let log : StockLog :=
        { typ := .SALE, amount := -soldItem.quantity, balance := newStock, timestamp := ts }
      { p with stock := newStock, stockHistory := log :: p.stockHistory }
  | none => p

/-- `completeSale` in `App.tsx`.  Note: there is no `isAdmin` guard and no
validation; the sale is stamped with the current user and prepended, and every
matched product is decremented unconditionally. -/
def completeSale (sale : Sale) (ts : Nat) (s : AppState) : AppState :=
  let processedSale := { sale with processedBy := s.currentUser.map (·.fullName) }
  { s with
    products := s.products.map (saleLineUpdate sale ts),
    sales := processedSale :: s.sales }

/-- One element of the `returns` argument of `processReturn`. -/
structure ReturnLine where
  productId : String
  quantity : Int
deriving DecidableEq

/-- The per-item updater inside `processReturn`: adds the requested quantity to
`returnedQuantity` (`(item.returnedQuantity || 0) + returnInfo.quantity`),
with no bound check. -/
def retItemUpdate (lines : List ReturnLine) (item : SaleItem) : SaleItem :=
  match lines.find? (fun r => r.productId == item.productId) with
  | some returnInfo =>
      { item with returnedQuantity := some (item.returnedQuantity.getD 0 + returnInfo.quantity) }
  | none => item

/-- The per-sale updater inside `processReturn`. -/
def retSaleUpdate (saleId : String) (lines : List ReturnLine) (sa : Sale) : Sale :=
  if sa.id == saleId then { sa with items := sa.items.map (retItemUpdate lines) } else sa

/-- The per-product updater for one line of `returns` in `processReturn`:
restocks the matching product (kind RESTOCK) without touching `lastRestocked`. -/
def returnLineUpdate (saleId : String) (ret : ReturnLine) (ts : Nat) (p : Product) : Product :=
  if p.id == ret.productId then
    let newStock := p.stock + ret.quantity
    let log : StockLog :=
      { typ := .RESTOCK, amount := ret.quantity, balance := newStock, timestamp := ts,
        reason := some ("Return from Sale #" ++ saleId.drop (saleId.length - 6)) }
    { p with stock := newStock, stockHistory := log :: p.stockHistory }
  else p

/-- `processReturn` in `App.tsx`: the sale store and the product store are
updated by two independent `setState` passes; nothing is validated. -/
def processReturn (saleId : String) (lines : List ReturnLine) (ts : Nat)
    (s : AppState) : AppState :=
  if !(isAdmin s) then s
  else
    { s with
      sales := s.sales.map (retSaleUpdate saleId lines),
      products := lines.foldl (fun ps ret => ps.map (returnLineUpdate saleId ret ts)) s.products }

/-- The per-product updater inside `restockProduct` in `App.tsx`: adds `amount`
(of any sign — there is no positivity check), logs a RESTOCK movement and sets
`lastRestocked`. -/
def restockUpdate (id : String) (amount : Int) (ts : Nat) (p : Product) : Product :=
  if p.id == id then
    let newStock := p.stock + amount
    let log : StockLog :=
      { typ := .RESTOCK, amount := amount, balance := newStock, timestamp := ts }
    { p with stock := newStock, lastRestocked := ts, stockHistory := log :: p.stockHistory }
  else p

/-- `restockProduct` in `App.tsx`. -/
def restockProduct (id : String) (amount : Int) (ts : Nat) (s : AppState) : AppState :=
  if !(isAdmin s) then s
  else { s with products := s.products.map (restockUpdate id amount ts) }

/-- `saveCustomer` in `App.tsx` (no role guard). -/
def saveCustomer (c : Customer) (s : AppState) : AppState :=
  { s with customers :=
      if s.customers.any (fun x => x.id == c.id) then
        s.customers.map (fun x => if x.id == c.id then c else x)
      else s.customers ++ [c] }

/-! ## The ledger-balance invariant -/

/-- Replay a ledger segment (ordered oldest→newest) from balance `b`, checking
`balance[i] = balance[i-1] + amount[i]` at every entry; returns the final
balance, or `none` on the first mismatch. -/
def replay (b : Int) : List StockLog → Option Int
  | [] => some b
  | e :: rest => if e.balance = b + e.amount then replay e.balance rest else none

/-- The ledger invariant of one product: replaying `stockHistory`
oldest→newest (the list is stored most-recent-first) from 0 reproduces
`product.stock` exactly.  In particular the newest entry's balance equals the
current stock. -/
def ledgerOk (p : Product) : Prop :=
  replay 0 p.stockHistory.reverse = some p.stock

instance (p : Product) : Decidable (ledgerOk p) := by
  unfold ledgerOk; infer_instance

/-! ## The operation machine used for the invariant claim -/

/-- One invocation of a mutating operation (the six operations named by the
ledger-invariant property), with its clock value. -/
inductive Op where
  | restock (id : String) (amount : Int) (ts : Nat)
  | adjust (id : String) (amount : Int) (reason : String) (ts : Nat)
  | sale (sa : Sale) (ts : Nat)
  | ret (saleId : String) (lines : List ReturnLine) (ts : Nat)
  | upd (p : Product) (ts : Nat)
  | bulk (ids : List String) (u : ProductPatch)
deriving DecidableEq

/-- Apply one operation to the state. -/
def applyOp : Op → AppState → AppState
  | .restock id amount ts => restockProduct id amount ts
  | .adjust id amount reason ts => adjustStock id amount reason ts
  | .sale sa ts => completeSale sa ts
  | .ret saleId lines ts => processReturn saleId lines ts
  | .upd p ts => updateProduct p ts
  | .bulk ids u => bulkUpdateProducts ids u

/-- Run a sequence of operations left to right. -/
def runOps (ops : List Op) (s : AppState) : AppState :=
  ops.foldl (fun st op => applyOp op st) s

/-- Side condition under which one operation respects the ledger arithmetic:
an adjustment must not be clamped (the code logs the unclamped amount), and a
bulk update must not overwrite `stock` or `stockHistory` (the code writes them
with no movement). All other operations are unrestricted. -/
def opSafe (s : AppState) : Op → Prop
  | .adjust id amount _ _ => ∀ p ∈ s.products, p.id == id → 0 ≤ p.stock + amount
  | .bulk _ u => u.stock = none ∧ u.stockHistory = none
  | _ => True

instance (s : AppState) (op : Op) : Decidable (opSafe s op) := by
  cases op <;> (unfold opSafe; infer_instance)

/-- `opSafe` holding at every step along a trace. -/
def traceSafe : AppState → List Op → Prop
  | _, [] => True
  | s, op :: rest => opSafe s op ∧ traceSafe (applyOp op s) rest

instance instDecTraceSafe : (s : AppState) → (ops : List Op) → Decidable (traceSafe s ops)
  | _, [] => by unfold traceSafe; infer_instance
  | s, op :: rest =>
    have ih : Decidable (traceSafe (applyOp op s) rest) := instDecTraceSafe _ _
    by unfold traceSafe; infer_instance

/-! ## The POS checkout computation (`POS.tsx`) -/

/-- `const subtotal = cart.reduce((acc, item) => acc + item.total, 0)`. -/
def cartSubtotal (cart : List SaleItem) : Rat :=
  cart.foldl (fun acc item => acc + item.total) 0

/-- The hardcoded 5% tax rate: `const tax = subtotal * 0.05`. -/
def taxRate : Rat := 5 / 100

/-- `const tax = subtotal * 0.05`. -/
def cartTax (cart : List SaleItem) : Rat := cartSubtotal cart * taxRate

/-- `const total = subtotal + tax`. -/
def cartTotal (cart : List SaleItem) : Rat := cartSubtotal cart + cartTax cart

/-- The `Sale` object constructed by `handleFinish` in `POS.tsx`. -/
def handleFinish (cart : List SaleItem) (saleId : String) (ts : Nat)
    (customerName customerAddress customerPhone : String)
    (paymentMethod : PaymentMethod) : Sale :=
  { id := saleId
    timestamp := ts
    customerName := some (if customerName == "" then "Walk-in Customer" else customerName)
    customerAddress := some customerAddress
    customerPhone := some customerPhone
    items := cart
    subtotal := cartSubtotal cart
    tax := cartTax cart
    total := cartTotal cart
    paymentMethod := paymentMethod }

/-! ## The product query (`Dashboard.tsx`): filter and multi-key stable sort -/

/-- A sort-key value as compared by `filteredProducts`: either a string (the
code lowercases both operands before comparing) or a number. -/
inductive SVal where
  | str : String → SVal
  | num : Rat → SVal
deriving DecidableEq

/-- The `keyof Product` columns offered by the `SortHeader` components in
`Dashboard.tsx`: name, category, buyPrice, marginPercent, sellPrice, stock. -/
inductive SortKey where
  | name
  | category
  | buyPrice
  | marginPercent
  | sellPrice
  | stock
deriving DecidableEq

/-- `type SortDirection = 'asc' | 'desc' | null`; the `null` case is the
`Option.none` of the `direction` field below. -/
inductive SortDir where
  | asc
  | desc
deriving DecidableEq

/-- `interface SortConfig { key; direction }`. -/
structure SortConfig where
  key : SortKey
  direction : Option SortDir
deriving DecidableEq

/-- The value `a[key]` used by the comparator, with the
`valA = valA.toLowerCase()` normalisation applied to string columns. -/
def keyVal : SortKey → Product → SVal
  | .name, p => .str (lowerStr p.name)
  | .category, p => .str (lowerStr p.category)
  | .buyPrice, p => .num p.buyPrice
  | .marginPercent, p => .num p.marginPercent
  | .sellPrice, p => .num p.sellPrice
  | .stock, p => .num (p.stock : Rat)

/-- The `valA < valB` test of the comparator.  Values of distinct shapes never
compare (as in JavaScript, where a relational comparison between a string and
a number that coerces to NaN is false); for a fixed sort key both values
always have the same shape. -/
def svalLt : SVal → SVal → Bool
  | .str a, .str b => strLt a b
  | .num a, .num b => a < b
  | _, _ => false

/-- The comparator closure of `filteredProducts`: walk the active sort keys in
order, return -1/1 (here `lt`/`gt`) on the first key that discriminates, skip
keys with a null direction, and fall through to 0 (`eq`). -/
def cmpBy : List SortConfig → Product → Product → Ordering
  | [], _, _ => .eq
  | cfg :: rest, a, b =>
    match cfg.direction with
    | none => cmpBy rest a b
    | some dir =>
      let va := keyVal cfg.key a
      let vb := keyVal cfg.key b
      if svalLt va vb then (match dir with | .asc => .lt | .desc => .gt)
      else if svalLt vb va then (match dir with | .asc => .gt | .desc => .lt)
      else cmpBy rest a b

/-- The "comes no later than" relation induced by the comparator.  A stable
comparator sort keeps `a` before `b` exactly when the comparator does not
return a positive value on `(a, b)`. -/
def sortLe (cfgs : List SortConfig) (a b : Product) : Bool :=
  cmpBy cfgs a b != .gt

/-- The search test of `filteredProducts`: name, SKU, or (when non-empty)
description contains the search term, case-insensitively. -/
def matchesSearch (term : String) (p : Product) : Bool :=
  strContains (lowerStr p.name) (lowerStr term)
  || strContains (lowerStr p.sku) (lowerStr term)
  || (p.description != "" && strContains (lowerStr p.description) (lowerStr term))

/-- The category test of `filteredProducts`. -/
def matchesCategory (cat : String) (p : Product) : Bool :=
  cat == "All" || p.category == cat

/-- `filteredProducts` in `Dashboard.tsx`: filter, then — only when at least
one sort key is active — sort a copy with the multi-key comparator.
`[...result].sort` is a stable sort (ECMAScript), modelled by `mergeSort`. -/
def filteredProducts (products : List Product) (searchTerm selectedCategory : String)
    (sortConfigs : List SortConfig) : List Product :=
  let result := products.filter (fun p =>
    matchesSearch searchTerm p && matchesCategory selectedCategory p)
  if sortConfigs.length > 0 then
    result.mergeSort (sortLe sortConfigs)
  else result

/-- `handleSort` in `Dashboard.tsx`: tri-state cycling asc → desc → removed;
without shift the clicked key replaces the whole list, with shift it is
updated in place, removed, or appended. -/
def handleSort (key : SortKey) (isShift : Bool) (prev : List SortConfig) : List SortConfig :=
  let existingIdx? := prev.findIdx? (fun c => c.key == key)
  let nextDirection : Option SortDir :=
    match existingIdx? with
    | some i =>
      match prev.get? i with
      | some c =>
        match c.direction with
        | some .asc => some .desc
        | some .desc => none
        | none => some .asc
      | none => some .asc
    | none => some .asc
  if !isShift then
    match nextDirection with
    | some d => [{ key := key, direction := some d }]
    | none => []
  else
    match existingIdx? with
    | some i =>
      match nextDirection with
      | some d => prev.set i { key := key, direction := some d }
      | none => prev.eraseIdx i
    | none =>
      match nextDirection with
      | some d => prev ++ [{ key := key, direction := some d }]
      | none => prev

/-! ## Concrete fixtures used by witnesses and counterexamples -/

/-- A minimal product whose ledger holds the single INITIAL entry written by
`addProduct`. -/
def demoProduct (id : String) (stock : Int) : Product :=
  { id := id, name := id, sku := id, category := "General", buyPrice := 1,
    marginPercent := 20, sellPrice := 2, stock := stock, minStock := 1,
    description := "", lastRestocked := 0,
    stockHistory := [{ typ := .INITIAL, amount := stock, balance := stock, timestamp := 0 }] }

/-- An ADMIN user. -/
def adminUser : User :=
  { id := "u1", username := "boss", role := .ADMIN, fullName := "Boss" }

/-- A SALESPERSON user. -/
def clerkUser : User :=
  { id := "u2", username := "clerk", role := .SALESPERSON, fullName := "Clerk" }

/-- A state logged in as ADMIN with the given products and sales. -/
def demoState (ps : List Product) (sas : List Sale) : AppState :=
  { currentUser := some adminUser, products := ps, sales := sas,
    customers := [], categories := ["General"] }

/-- The product-store effect of one whole `processReturn` call on one product:
the lines applied left to right, as the sequential `setProducts` calls do. -/
def retProductFold (saleId : String) (lines : List ReturnLine) (ts : Nat) (p : Product) : Product :=
  lines.foldl (fun q ret => returnLineUpdate saleId ret ts q) p

/-- A one-line cart entry of quantity `q` at unit price 10, with the
`total = quantity * price` maintained by `addToCart`. -/
def demoItem (pid : String) (q : Int) : SaleItem :=
  { productId := pid, name := pid, quantity := q, price := 10, total := (q : Rat) * 10 }

/-- A one-line sale of quantity `q` of product `pid` at unit price 10, as
`handleFinish` would build it. -/
def demoSale (pid : String) (q : Int) : Sale :=
  handleFinish [demoItem pid q] "SALE-1000" 5 "" "" "" .Cash

/-- A recorded sale of two units of product `p1`, not yet returned. -/
def soldSale : Sale := { demoSale "p1" 2 with id := "S1" }

/-- A small catalog with distinct stocks and a shared category. -/
def demoCatalog : List Product :=
  [demoProduct "b" 5, demoProduct "a" 3, demoProduct "c" 4]

/-- A state logged in as SALESPERSON with one product. -/
def clerkState : AppState :=
  { currentUser := some clerkUser, products := [demoProduct "p1" 5], sales := [soldSale],
    customers := [], categories := ["General"] }

/-! ## Order theory for the comparator of `filteredProducts` -/

theorem charsLt_asymm : ∀ {a b : List Char}, charsLt a b = true → charsLt b a = false
  | [], [], h => by simp [charsLt] at h
  | [], _ :: _, _ => by simp [charsLt]
  | _ :: _, [], h => by simp [charsLt] at h
  | x :: xs, y :: ys, h => by
    by_cases hxy : x < y
    · have hyx : ¬ y < x := lt_asymm hxy
      have hne : y ≠ x := fun he => absurd (he ▸ hxy) (lt_irrefl x)
      simp [charsLt, hyx, hne]
    · by_cases hxe : x = y
      · subst hxe
        have h' : charsLt xs ys = true := by simpa [charsLt, hxy] using h
        simp [charsLt, hxy, charsLt_asymm h']
      · exact absurd h (by simp [charsLt, hxy, hxe])

theorem charsLt_irrefl : ∀ (a : List Char), charsLt a a = false
  | [] => rfl
  | x :: xs => by simp [charsLt, charsLt_irrefl xs]

theorem charsLt_antisymm : ∀ {a b : List Char},
    charsLt a b = false → charsLt b a = false → a = b
  | [], [], _, _ => rfl
  | [], _ :: _, h, _ => by simp [charsLt] at h
  | _ :: _, [], _, h => by simp [charsLt] at h
  | x :: xs, y :: ys, h₁, h₂ => by
    by_cases hxy : x < y
    · exact absurd h₁ (by simp [charsLt, hxy])
    · by_cases hyx : y < x
      · exact absurd h₂ (by simp [charsLt, hyx])
      · have hxe : x = y := le_antisymm (not_lt.mp hyx) (not_lt.mp hxy)
        subst hxe
        have h₁' : charsLt xs ys = false := by simpa [charsLt, hxy] using h₁
        have h₂' : charsLt ys xs = false := by simpa [charsLt, hxy] using h₂
        rw [charsLt_antisymm h₁' h₂']

theorem charsLt_trans : ∀ {a b c : List Char},
    charsLt a b = true → charsLt b c = true → charsLt a c = true
  | [], _, _ :: _, _, _ => by simp [charsLt]
  | [], _ :: _, [], _, h => by simp [charsLt] at h
  | [], [], [], h, _ => by simp [charsLt] at h
  | _ :: _, [], _, h, _ => by simp [charsLt] at h
  | _ :: _, _ :: _, [], _, h => by simp [charsLt] at h
  | x :: xs, y :: ys, z :: zs, h₁, h₂ => by
    by_cases hxy : x < y
    · by_cases hyz : y < z
      · simp [charsLt, lt_trans hxy hyz]
      · by_cases hye : y = z
        · subst hye; simp [charsLt, hxy]
        · exact absurd h₂ (by simp [charsLt, hyz, hye])
    · by_cases hxe : x = y
      · subst hxe
        by_cases hxz : x < z
        · simp [charsLt, hxz]
        · by_cases hze : x = z
          · subst hze
            have h₁' : charsLt xs ys = true := by simpa [charsLt, hxy] using h₁
            have h₂' : charsLt ys zs = true := by simpa [charsLt, hxz] using h₂
            simp [charsLt, hxz, charsLt_trans h₁' h₂']
          · exact absurd h₂ (by simp [charsLt, hxz, hze])
      · exact absurd h₁ (by simp [charsLt, hxy, hxe])

theorem strLt_asymm {a b : String} (h : strLt a b = true) : strLt b a = false :=
  charsLt_asymm h

theorem strLt_antisymm {a b : String} (h₁ : strLt a b = false) (h₂ : strLt b a = false) :
    a = b :=
  String.ext (charsLt_antisymm h₁ h₂)

theorem strLt_trans {a b c : String} (h₁ : strLt a b = true) (h₂ : strLt b c = true) :
    strLt a c = true :=
  charsLt_trans h₁ h₂

theorem svalLt_asymm : ∀ {x y : SVal}, svalLt x y = true → svalLt y x = false
  | .str _, .str _, h => strLt_asymm h
  | .num _, .num _, h => by
    simp only [svalLt, decide_eq_true_eq] at h
    simp [svalLt, not_lt.mpr h.le]
  | .str _, .num _, h => by simp [svalLt] at h
  | .num _, .str _, h => by simp [svalLt] at h

theorem svalLt_irrefl : ∀ (x : SVal), svalLt x x = false
  | .str s => charsLt_irrefl s.data
  | .num q => by simp [svalLt]

theorem svalLt_trans : ∀ {x y z : SVal},
    svalLt x y = true → svalLt y z = true → svalLt x z = true
  | .str _, .str _, .str _, h₁, h₂ => strLt_trans h₁ h₂
  | .num _, .num _, .num _, h₁, h₂ => by
    simp only [svalLt, decide_eq_true_eq] at h₁ h₂ ⊢
    exact lt_trans h₁ h₂
  | .str _, .str _, .num _, _, h₂ => by simp [svalLt] at h₂
  | .str _, .num _, _, h₁, _ => by simp [svalLt] at h₁
  | .num _, .str _, _, h₁, _ => by simp [svalLt] at h₁
  | .num _, .num _, .str _, _, h₂ => by simp [svalLt] at h₂

/-- For a fixed sort key both compared values have the same shape, so the
comparison is trichotomous: if neither is smaller they are equal. -/
theorem keyVal_antisymm : ∀ (k : SortKey) (a b : Product),
    svalLt (keyVal k a) (keyVal k b) = false →
    svalLt (keyVal k b) (keyVal k a) = false →
    keyVal k a = keyVal k b
  | .name, _, _, h₁, h₂ => congrArg SVal.str (strLt_antisymm h₁ h₂)
  | .category, _, _, h₁, h₂ => congrArg SVal.str (strLt_antisymm h₁ h₂)
  | .buyPrice, _, _, h₁, h₂ =>
      congrArg SVal.num
        (le_antisymm (not_lt.mp (of_decide_eq_false h₂)) (not_lt.mp (of_decide_eq_false h₁)))
  | .marginPercent, _, _, h₁, h₂ =>
      congrArg SVal.num
        (le_antisymm (not_lt.mp (of_decide_eq_false h₂)) (not_lt.mp (of_decide_eq_false h₁)))
  | .sellPrice, _, _, h₁, h₂ =>
      congrArg SVal.num
        (le_antisymm (not_lt.mp (of_decide_eq_false h₂)) (not_lt.mp (of_decide_eq_false h₁)))
  | .stock, _, _, h₁, h₂ =>
      congrArg SVal.num
        (le_antisymm (not_lt.mp (of_decide_eq_false h₂)) (not_lt.mp (of_decide_eq_false h₁)))

/-- Swapping the compared products mirrors the comparator's verdict. -/
theorem cmpBy_swap : ∀ (cfgs : List SortConfig) (a b : Product),
    cmpBy cfgs b a = (cmpBy cfgs a b).swap
  | [], _, _ => rfl
  | cfg :: rest, a, b => by
    match hdir : cfg.direction with
    | none => simpa [cmpBy, hdir] using cmpBy_swap rest a b
    | some dir =>
      by_cases hab : svalLt (keyVal cfg.key a) (keyVal cfg.key b) = true
      · have hba := svalLt_asymm hab
        cases dir <;> simp [cmpBy, hdir, hab, hba, Ordering.swap]
      · by_cases hba : svalLt (keyVal cfg.key b) (keyVal cfg.key a) = true
        · cases dir <;> simp [cmpBy, hdir, hab, hba, Ordering.swap]
        · cases dir <;>
            simpa [cmpBy, hdir, hab, hba] using cmpBy_swap rest a b

/-- On a single sort key, descending is the mirror image of ascending. -/
theorem cmpBy_desc_single (k : SortKey) (a b : Product) :
    cmpBy [{ key := k, direction := some .desc }] a b
      = (cmpBy [{ key := k, direction := some .asc }] a b).swap := by
  by_cases hab : svalLt (keyVal k a) (keyVal k b) = true
  · simp [cmpBy, hab, Ordering.swap]
  · by_cases hba : svalLt (keyVal k b) (keyVal k a) = true
    · simp [cmpBy, hab, hba, Ordering.swap]
    · simp [cmpBy, hab, hba, Ordering.swap]

/-- The comparator is total: at least one direction is "no later than". -/
theorem sortLe_total (cfgs : List SortConfig) (a b : Product) :
    (sortLe cfgs a b || sortLe cfgs b a) = true := by
  unfold sortLe
  rw [cmpBy_swap cfgs a b]
  cases cmpBy cfgs a b <;> decide

/-- Introduction: a strictly smaller leading key value decides an ascending key. -/
theorem sortLe_cons_of_asc {cfg : SortConfig} {rest : List SortConfig} {a b : Product}
    (hdir : cfg.direction = some .asc)
    (h : svalLt (keyVal cfg.key a) (keyVal cfg.key b) = true) :
    sortLe (cfg :: rest) a b = true := by
  simp [sortLe, cmpBy, hdir, h]
  rfl

/-- Introduction: a strictly larger leading key value decides a descending key. -/
theorem sortLe_cons_of_desc {cfg : SortConfig} {rest : List SortConfig} {a b : Product}
    (hdir : cfg.direction = some .desc)
    (h : svalLt (keyVal cfg.key b) (keyVal cfg.key a) = true) :
    sortLe (cfg :: rest) a b = true := by
  simp [sortLe, cmpBy, hdir, h, svalLt_asymm h]
  rfl

/-- Introduction: a tied leading key defers to the remaining keys. -/
theorem sortLe_cons_of_tie {cfg : SortConfig} {rest : List SortConfig} {dir : SortDir}
    {a b : Product} (hdir : cfg.direction = some dir)
    (hkey : keyVal cfg.key a = keyVal cfg.key b) (h : sortLe rest a b = true) :
    sortLe (cfg :: rest) a b = true := by
  cases dir <;> simpa [sortLe, cmpBy, hdir, hkey, svalLt_irrefl] using h

/-- Elimination form of `sortLe` on one active key: either the leading key
already decides, or the key values tie and the remaining keys answer. -/
theorem sortLe_cons_elim {cfg : SortConfig} {rest : List SortConfig} {dir : SortDir}
    {a b : Product} (hdir : cfg.direction = some dir)
    (h : sortLe (cfg :: rest) a b = true) :
    (dir = .asc ∧ svalLt (keyVal cfg.key a) (keyVal cfg.key b) = true)
    ∨ (dir = .desc ∧ svalLt (keyVal cfg.key b) (keyVal cfg.key a) = true)
    ∨ (svalLt (keyVal cfg.key a) (keyVal cfg.key b) = false
        ∧ svalLt (keyVal cfg.key b) (keyVal cfg.key a) = false
        ∧ sortLe rest a b = true) := by
  by_cases hab : svalLt (keyVal cfg.key a) (keyVal cfg.key b) = true
  · cases dir
    · exact Or.inl ⟨rfl, hab⟩
    · exact absurd h (by simp [sortLe, cmpBy, hdir, hab]; rfl)
  · have hab' : svalLt (keyVal cfg.key a) (keyVal cfg.key b) = false := by simpa using hab
    by_cases hba : svalLt (keyVal cfg.key b) (keyVal cfg.key a) = true
    · cases dir
      · exact absurd h (by simp [sortLe, cmpBy, hdir, hab', hba]; rfl)
      · exact Or.inr (Or.inl ⟨rfl, hba⟩)
    · have hba' : svalLt (keyVal cfg.key b) (keyVal cfg.key a) = false := by simpa using hba
      refine Or.inr (Or.inr ⟨hab', hba', ?_⟩)
      cases dir <;> simpa [sortLe, cmpBy, hdir, hab', hba'] using h

/-- A verdict of `eq` means every active key compares equal, so the relation
"no later than" is transitive. -/
theorem sortLe_trans : ∀ (cfgs : List SortConfig) (a b c : Product),
    sortLe cfgs a b = true → sortLe cfgs b c = true → sortLe cfgs a c = true
  | [], _, _, _, _, _ => rfl
  | cfg :: rest, a, b, c, h₁, h₂ => by
    match hdir : cfg.direction with
    | none =>
      simp only [sortLe, cmpBy, hdir] at h₁ h₂ ⊢
      exact sortLe_trans rest a b c h₁ h₂
    | some dir =>
      rcases sortLe_cons_elim hdir h₁ with ⟨hd, hA⟩ | ⟨hd, hA⟩ | ⟨hab, hba, hAr⟩
      · subst hd
        rcases sortLe_cons_elim hdir h₂ with ⟨_, hB⟩ | ⟨hd', hB⟩ | ⟨hbc, hcb, hBr⟩
        · exact sortLe_cons_of_asc hdir (svalLt_trans hA hB)
        · simp at hd'
        · have hkey := keyVal_antisymm cfg.key b c hbc hcb
          rw [hkey] at hA
          exact sortLe_cons_of_asc hdir hA
      · subst hd
        rcases sortLe_cons_elim hdir h₂ with ⟨hd', hB⟩ | ⟨_, hB⟩ | ⟨hbc, hcb, hBr⟩
        · simp at hd'
        · exact sortLe_cons_of_desc hdir (svalLt_trans hB hA)
        · have hkey := keyVal_antisymm cfg.key b c hbc hcb
          rw [hkey] at hA
          exact sortLe_cons_of_desc hdir hA
      · rcases sortLe_cons_elim hdir h₂ with ⟨hd', hB⟩ | ⟨hd', hB⟩ | ⟨hbc, hcb, hBr⟩
        · subst hd'
          have hkey := keyVal_antisymm cfg.key a b hab hba
          rw [← hkey] at hB
          exact sortLe_cons_of_asc hdir hB
        · subst hd'
          have hkey := keyVal_antisymm cfg.key a b hab hba
          rw [← hkey] at hB
          exact sortLe_cons_of_desc hdir hB
        · have hkey₁ := keyVal_antisymm cfg.key a b hab hba
          have hkey₂ := keyVal_antisymm cfg.key b c hbc hcb
          exact sortLe_cons_of_tie hdir (hkey₁.trans hkey₂)
            (sortLe_trans rest a b c hAr hBr)


/-- Two sorted permutations of each other agree, provided the order is
antisymmetric on the elements involved. -/
theorem sorted_perm_unique {α : Type} {le : α → α → Bool} :
    ∀ {l₁ l₂ : List α}, l₁.Perm l₂ →
      l₁.Pairwise (fun x y => le x y = true) → l₂.Pairwise (fun x y => le x y = true) →
      (∀ x ∈ l₁, ∀ y ∈ l₁, le x y = true → le y x = true → x = y) → l₁ = l₂
  | [], [], _, _, _, _ => rfl
  | [], _ :: _, hperm, _, _, _ => absurd hperm.symm (by simp)
  | _ :: _, [], hperm, _, _, _ => absurd hperm (by simp)
  | a :: t₁, b :: t₂, hperm, hs₁, hs₂, hanti => by
    have hab : a = b := by
      by_cases hne : a = b
      · exact hne
      · have ha2 : a ∈ t₂ := by
          have := hperm.mem_iff.mp (List.mem_cons_self a t₁)
          simpa [hne] using this
        have hb1 : b ∈ t₁ := by
          have := hperm.mem_iff.mpr (List.mem_cons_self b t₂)
          rcases List.mem_cons.mp this with h | h
          · exact absurd h.symm hne
          · exact h
        exact hanti a (List.mem_cons_self a t₁) b (List.mem_cons_of_mem a hb1)
          (List.rel_of_pairwise_cons hs₁ hb1) (List.rel_of_pairwise_cons hs₂ ha2)
    subst hab
    have ht : t₁.Perm t₂ := hperm.cons_inv
    have hrec := sorted_perm_unique ht hs₁.tail hs₂.tail
      (fun x hx y hy => hanti x (List.mem_cons_of_mem a hx) y (List.mem_cons_of_mem a hy))
    rw [hrec]

/-- Flipping the direction of a single key mirrors the relation. -/
theorem sortLe_asc_desc_flip (k : SortKey) (x y : Product) :
    sortLe [{ key := k, direction := some .asc }] x y
      = sortLe [{ key := k, direction := some .desc }] y x := by
  unfold sortLe
  rw [cmpBy_swap [{ key := k, direction := some SortDir.desc }] x y,
    cmpBy_desc_single, Ordering.swap_swap]

/-- With a single active key and no ties among the listed products, the
descending sort is exactly the reverse of the ascending sort. -/
theorem mergeSort_desc_eq_reverse (k : SortKey) (l : List Product)
    (hnt : l.Pairwise (fun x y => cmpBy [{ key := k, direction := some .asc }] x y ≠ .eq)) :
    l.mergeSort (sortLe [{ key := k, direction := some .desc }])
      = (l.mergeSort (sortLe [{ key := k, direction := some .asc }])).reverse := by
  have hAperm := List.mergeSort_perm l (sortLe [{ key := k, direction := some SortDir.asc }])
  have hDperm := List.mergeSort_perm l (sortLe [{ key := k, direction := some SortDir.desc }])
  have hAsorted := List.sorted_mergeSort
    (fun x y z => sortLe_trans [{ key := k, direction := some SortDir.asc }] x y z)
    (fun x y => sortLe_total [{ key := k, direction := some SortDir.asc }] x y) l
  have hDsorted := List.sorted_mergeSort
    (fun x y z => sortLe_trans [{ key := k, direction := some SortDir.desc }] x y z)
    (fun x y => sortLe_total [{ key := k, direction := some SortDir.desc }] x y) l
  -- the reversed ascending result is sorted for the descending order
  have hRevSorted : (l.mergeSort
        (sortLe [{ key := k, direction := some SortDir.asc }])).reverse.Pairwise
      (fun x y => sortLe [{ key := k, direction := some SortDir.desc }] x y = true) := by
    rw [List.pairwise_reverse]
    exact hAsorted.imp (fun {x y} h => (sortLe_asc_desc_flip k x y) ▸ h)
  -- antisymmetry on the elements involved, from the no-ties bound
  have hsym : ∀ x ∈ l, ∀ y ∈ l, x ≠ y →
      cmpBy [{ key := k, direction := some SortDir.asc }] x y ≠ .eq := by
    refine List.Pairwise.forall ?_ hnt
    intro x y h he
    apply h
    rw [cmpBy_swap [{ key := k, direction := some SortDir.asc }] x y] at he
    cases hc : cmpBy [{ key := k, direction := some SortDir.asc }] x y
    · rw [hc] at he; exact absurd he (by decide)
    · rfl
    · rw [hc] at he; exact absurd he (by decide)
  have hanti : ∀ x ∈ l.mergeSort (sortLe [{ key := k, direction := some SortDir.desc }]),
      ∀ y ∈ l.mergeSort (sortLe [{ key := k, direction := some SortDir.desc }]),
      sortLe [{ key := k, direction := some SortDir.desc }] x y = true →
      sortLe [{ key := k, direction := some SortDir.desc }] y x = true → x = y := by
    intro x hx y hy hxy hyx
    rw [List.mem_mergeSort] at hx hy
    by_cases hne : x = y
    · exact hne
    · exfalso
      have heq : cmpBy [{ key := k, direction := some SortDir.desc }] x y = .eq := by
        have h₁ : cmpBy [{ key := k, direction := some SortDir.desc }] x y ≠ .gt := by
          intro hgt; rw [sortLe, hgt] at hxy; exact absurd hxy (by decide)
        have h₂ : cmpBy [{ key := k, direction := some SortDir.desc }] x y ≠ .lt := by
          intro hlt
          have hxgt : cmpBy [{ key := k, direction := some SortDir.desc }] y x = .gt := by
            rw [cmpBy_swap [{ key := k, direction := some SortDir.desc }] x y, hlt]; rfl
          rw [sortLe, hxgt] at hyx; exact absurd hyx (by decide)
        cases hc : cmpBy [{ key := k, direction := some SortDir.desc }] x y
        · exact absurd hc h₂
        · rfl
        · exact absurd hc h₁
      have hds := cmpBy_desc_single k x y
      rw [hds] at heq
      have heqAsc : cmpBy [{ key := k, direction := some SortDir.asc }] x y = .eq := by
        cases hc : cmpBy [{ key := k, direction := some SortDir.asc }] x y
        · rw [hc] at heq; exact absurd heq (by decide)
        · rfl
        · rw [hc] at heq; exact absurd heq (by decide)
      exact hsym x hx y hy hne heqAsc
  exact sorted_perm_unique (hDperm.trans (hAperm.symm.trans (List.reverse_perm _).symm))
    hDsorted hRevSorted hanti



/-! ## Ledger preservation -/

theorem replay_append : ∀ (l₁ : List StockLog) (b : Int) (l₂ : List StockLog),
    replay b (l₁ ++ l₂) = (replay b l₁).bind (fun x => replay x l₂)
  | [], _, _ => rfl
  | e :: rest, b, l₂ => by
    by_cases h : e.balance = b + e.amount
    · simp only [List.cons_append, replay, if_pos h]
      exact replay_append rest e.balance l₂
    · simp [replay, h]

/-- Prepending a movement whose balance extends the chain keeps replay defined
and moves the final balance to the new entry. -/
theorem replay_push {p : Product} {log : StockLog} (h : ledgerOk p)
    (hb : log.balance = p.stock + log.amount) :
    replay 0 (log :: p.stockHistory).reverse = some log.balance := by
  rw [List.reverse_cons, replay_append, h]
  simp [replay, hb]

theorem ledgerOk_restockUpdate {id : String} {amount : Int} {ts : Nat} {p : Product}
    (h : ledgerOk p) : ledgerOk (restockUpdate id amount ts p) := by
  unfold restockUpdate
  by_cases hid : (p.id == id) = true
  · simp only [hid, if_true]
    unfold ledgerOk
    simpa using replay_push h rfl
  · simpa [hid] using h

theorem ledgerOk_adjustStockOne {id : String} {amount : Int} {reason : String} {ts : Nat}
    {p : Product} (h : ledgerOk p) (hsafe : (p.id == id) = true → 0 ≤ p.stock + amount) :
    ledgerOk (adjustStockOne id amount reason ts p) := by
  unfold adjustStockOne
  by_cases hid : (p.id == id) = true
  · have hmax : max 0 (p.stock + amount) = p.stock + amount := max_eq_right (hsafe hid)
    simp only [hid, if_true]
    unfold ledgerOk
    simpa [hmax] using replay_push h (by simp [hmax])
  · simpa [hid] using h

theorem ledgerOk_saleLineUpdate {sale : Sale} {ts : Nat} {p : Product}
    (h : ledgerOk p) : ledgerOk (saleLineUpdate sale ts p) := by
  unfold saleLineUpdate
  cases hf : sale.items.find? (fun item => item.productId == p.id) with
  | none => simpa using h
  | some soldItem =>
    unfold ledgerOk
    simpa using replay_push h (by simp [sub_eq_add_neg])

theorem ledgerOk_returnLineUpdate {saleId : String} {ret : ReturnLine} {ts : Nat}
    {p : Product} (h : ledgerOk p) : ledgerOk (returnLineUpdate saleId ret ts p) := by
  unfold returnLineUpdate
  by_cases hid : (p.id == ret.productId) = true
  · simp only [hid, if_true]
    unfold ledgerOk
    simpa using replay_push h rfl
  · simpa [hid] using h

theorem ledgerOk_updateProductOne {updated : Product} {ts : Nat} {p : Product}
    (h : ledgerOk p) : ledgerOk (updateProductOne updated ts p) := by
  unfold updateProductOne
  by_cases hid : (p.id == updated.id) = true
  · by_cases hst : (updated.stock != p.stock) = true
    · simp only [hid, hst, if_true]
      unfold ledgerOk
      simpa using replay_push h (by simp)
    · have hst' : updated.stock = p.stock := by simpa using hst
      simp only [hid, hst, if_true, if_false]
      unfold ledgerOk at h ⊢
      simpa [hst'] using h
  · simpa [hid] using h

theorem ledgerOk_applyPatch {u : ProductPatch} {p : Product}
    (hstock : u.stock = none) (hh : u.stockHistory = none) (h : ledgerOk p) :
    ledgerOk (applyPatch u p) := by
  unfold ledgerOk at h ⊢
  simp only [applyPatch, hstock, hh, Option.getD_none]
  exact h

/-- `addCategory` never touches the product store. -/
theorem addCategory_products (name : String) (s : AppState) :
    (addCategory name s).products = s.products := by
  unfold addCategory
  split
  · rfl
  · split <;> rfl

theorem ledgerOk_retFold {saleId : String} {ts : Nat} :
    ∀ (lines : List ReturnLine) (ps : List Product),
      (∀ p ∈ ps, ledgerOk p) →
      ∀ p ∈ lines.foldl (fun acc ret => acc.map (returnLineUpdate saleId ret ts)) ps,
        ledgerOk p
  | [], _, h => h
  | ret :: rest, ps, h => by
    simp only [List.foldl_cons]
    apply ledgerOk_retFold rest
    intro q hq
    rw [List.mem_map] at hq
    obtain ⟨p, hp, rfl⟩ := hq
    exact ledgerOk_returnLineUpdate (h p hp)

/-- Every single operation, under its safety side condition, preserves the
ledger invariant of every product. -/
theorem invariant_applyOp {s : AppState} {op : Op}
    (h : ∀ p ∈ s.products, ledgerOk p) (hsafe : opSafe s op) :
    ∀ p ∈ (applyOp op s).products, ledgerOk p := by
  cases op with
  | restock id amount ts =>
    simp only [applyOp, restockProduct]
    split
    · exact h
    · intro q hq
      rw [List.mem_map] at hq
      obtain ⟨p, hp, rfl⟩ := hq
      exact ledgerOk_restockUpdate (h p hp)
  | adjust id amount reason ts =>
    simp only [applyOp, adjustStock]
    split
    · exact h
    · intro q hq
      rw [List.mem_map] at hq
      obtain ⟨p, hp, rfl⟩ := hq
      exact ledgerOk_adjustStockOne (h p hp) (fun hid => hsafe p hp hid)
  | sale sa ts =>
    simp only [applyOp, completeSale]
    intro q hq
    rw [List.mem_map] at hq
    obtain ⟨p, hp, rfl⟩ := hq
    exact ledgerOk_saleLineUpdate (h p hp)
  | ret saleId lines ts =>
    simp only [applyOp, processReturn]
    split
    · exact h
    · exact ledgerOk_retFold lines s.products h
  | upd p0 ts =>
    simp only [applyOp, updateProduct]
    split
    · exact h
    · split
      · intro q hq
        rw [List.mem_map] at hq
        obtain ⟨p, hp, rfl⟩ := hq
        exact ledgerOk_updateProductOne (h p hp)
      · rw [addCategory_products]
        intro q hq
        rw [List.mem_map] at hq
        obtain ⟨p, hp, rfl⟩ := hq
        exact ledgerOk_updateProductOne (h p hp)
  | bulk ids u =>
    simp only [applyOp, bulkUpdateProducts]
    split
    · exact h
    · intro q hq
      rw [List.mem_map] at hq
      obtain ⟨p, hp, rfl⟩ := hq
      split
      · exact ledgerOk_applyPatch hsafe.1 hsafe.2 (h p hp)
      · exact h p hp

theorem invariant_runOps : ∀ (ops : List Op) (s : AppState),
    (∀ p ∈ s.products, ledgerOk p) → traceSafe s ops →
    ∀ p ∈ (runOps ops s).products, ledgerOk p
  | [], _, h, _ => h
  | op :: rest, s, h, hts => by
    obtain ⟨h1, h2⟩ := hts
    exact invariant_runOps rest _ (invariant_applyOp h h1) h2


/-! ## Claim theorems -/

/-- C2 (counterexample): the ledger invariant as claimed is false on the code.
Starting from a well-formed one-product state (stock 5, consistent INITIAL
ledger), the single reachable-by-`adjustStock` state after `adjustStock(p1,
-10, ...)` has a product whose ledger does not replay to its stock: the code
clamps the balance at 0 but logs the unclamped amount -10, so
`balance[last] = 0 ≠ 5 + (-10)`. -/
theorem C2_counterexample :
    ¬ (∀ p ∈ (runOps [Op.adjust "p1" (-10) "shrinkage" 3]
        (demoState [demoProduct "p1" 5] [])).products, ledgerOk p) := by decide

/-- C2 (amended): for every product reachable by a sequence of restock,
adjustStock, completeSale, processReturn, updateProduct and
bulkUpdateProducts from a state whose products all satisfy the ledger
invariant, the invariant (replaying the ledger oldest→newest from the INITIAL
entry reproduces `product.stock`, i.e. `balance[i] = balance[i-1] + amount[i]`
and `balance[last] = product.stock`) still holds — provided no `adjustStock`
step is clamped (its product satisfies `0 ≤ stock + amount` when applied) and
no `bulkUpdateProducts` step patches `stock` or `stockHistory`.  The two
excluded cases are exactly the ones the counterexample shows to break the
invariant. -/
theorem C2_ledger_invariant_amended :
    ∀ (ops : List Op) (s : AppState),
      (∀ p ∈ s.products, ledgerOk p) → traceSafe s ops →
      ∀ p ∈ (runOps ops s).products, ledgerOk p :=
  invariant_runOps

/-- C2 (witness): the amended invariant applied to a concrete two-step safe
trace (a restock of 7 then an unclamped adjustment of -2 on stock 12). -/
theorem C2_witness :
    (∀ p ∈ (demoState [demoProduct "p1" 5] []).products, ledgerOk p)
    ∧ traceSafe (demoState [demoProduct "p1" 5] [])
        [Op.restock "p1" 7 1, Op.adjust "p1" (-2) "damaged unit" 4]
    ∧ ∀ p ∈ (runOps [Op.restock "p1" 7 1, Op.adjust "p1" (-2) "damaged unit" 4]
        (demoState [demoProduct "p1" 5] [])).products, ledgerOk p :=
  ⟨by decide, by decide,
    C2_ledger_invariant_amended [Op.restock "p1" 7 1, Op.adjust "p1" (-2) "damaged unit" 4]
      (demoState [demoProduct "p1" 5] []) (by decide) (by decide)⟩

/-- C1 (counterexample): `completeSale` performs no stock validation.  Selling
5 units of a product with stock 3 does not fail with `InsufficientStock`: it
drives the stock to -2, appends the SALE movement, and still creates the Sale
record (the sale store grows from 0 to 1 entries). -/
theorem C1_counterexample :
    ((completeSale (demoSale "p1" 5) 7 (demoState [demoProduct "p1" 3] [])).products.map
        (fun p => p.stock)) = [-2]
    ∧ (completeSale (demoSale "p1" 5) 7 (demoState [demoProduct "p1" 3] [])).sales.length = 1
    ∧ ((completeSale (demoSale "p1" 5) 7 (demoState [demoProduct "p1" 3] [])).products.map
        (fun p => p.stockHistory.length)) = [2] :=
  ⟨by decide, by decide, by decide⟩

/-- C1 (amended): `completeSale` never fails and applies every line
unconditionally: the processed sale is always prepended to the sale store, and
every product matched by a line has its stock decremented by the first
matching line's quantity — below 0 whenever that quantity exceeds the current
stock — with a SALE movement recorded. -/
theorem C1_completeSale_unchecked :
    ∀ (s : AppState) (sale : Sale) (ts : Nat) (p : Product) (item : SaleItem),
      p ∈ s.products →
      sale.items.find? (fun it => it.productId == p.id) = some item →
      (completeSale sale ts s).sales
          = { sale with processedBy := s.currentUser.map (fun u => u.fullName) } :: s.sales
        ∧ saleLineUpdate sale ts p ∈ (completeSale sale ts s).products
        ∧ (saleLineUpdate sale ts p).stock = p.stock - item.quantity
        ∧ (saleLineUpdate sale ts p).stockHistory
            = ({ typ := .SALE, amount := -item.quantity, balance := p.stock - item.quantity,
                 timestamp := ts } : StockLog) :: p.stockHistory
        ∧ (p.stock < item.quantity → (saleLineUpdate sale ts p).stock < 0) := by
  intro s sale ts p item hp hfind
  refine ⟨rfl, ?_, ?_, ?_, ?_⟩
  · exact List.mem_map_of_mem (saleLineUpdate sale ts) hp
  · simp [saleLineUpdate, hfind]
  · simp [saleLineUpdate, hfind]
  · intro hlt
    simp only [saleLineUpdate, hfind]
    omega

/-- C1 (witness): the amended statement at the concrete oversell (stock 3,
quantity 5). -/
theorem C1_witness :
    (demoProduct "p1" 3 ∈ (demoState [demoProduct "p1" 3] []).products)
    ∧ ((demoSale "p1" 5).items.find?
        (fun it => it.productId == (demoProduct "p1" 3).id) = some (demoItem "p1" 5))
    ∧ ((saleLineUpdate (demoSale "p1" 5) 7 (demoProduct "p1" 3)).stock
          = (demoProduct "p1" 3).stock - (demoItem "p1" 5).quantity
        ∧ ((demoProduct "p1" 3).stock < (demoItem "p1" 5).quantity →
            (saleLineUpdate (demoSale "p1" 5) 7 (demoProduct "p1" 3)).stock < 0)) :=
  ⟨by simp [demoState], rfl,
    (C1_completeSale_unchecked (demoState [demoProduct "p1" 3] []) (demoSale "p1" 5) 7
        (demoProduct "p1" 3) (demoItem "p1" 5) (by simp [demoState]) rfl).2.2.1,
    fun hlt => ((C1_completeSale_unchecked (demoState [demoProduct "p1" 3] []) (demoSale "p1" 5) 7
        (demoProduct "p1" 3) (demoItem "p1" 5) (by simp [demoState]) rfl).2.2.2.2 hlt)⟩

/-- C3 (counterexample): `processReturn` performs no returnable-quantity
validation.  On a sale of 2 units with nothing yet returned, requesting a
return of 5 does not fail with `ExcessiveReturn`: the item ends with
`returnedQuantity = 5 > quantity = 2` and the product stock is increased by
the full 5 (3 → 8). -/
theorem C3_counterexample :
    ((processReturn "S1" [{ productId := "p1", quantity := 5 }] 9
        (demoState [demoProduct "p1" 3] [soldSale])).sales.map
        (fun sa => sa.items.map (fun it => it.returnedQuantity))) = [[some 5]]
    ∧ ((processReturn "S1" [{ productId := "p1", quantity := 5 }] 9
        (demoState [demoProduct "p1" 3] [soldSale])).products.map
        (fun p => p.stock)) = [8]
    ∧ (soldSale.items.map (fun it => it.quantity)) = [2] :=
  ⟨by decide, by decide, by decide⟩

/-- C3 (amended): `processReturn` (as an ADMIN) applies every requested line
unconditionally: a line matching an item of the addressed sale adds its full
requested quantity to that item's `returnedQuantity`, with no comparison
against the returnable quantity — so when the request exceeds
`quantity − returnedQuantity` the bound `returnedQuantity ≤ quantity` is
violated rather than the call failing. -/
theorem C3_processReturn_unchecked :
    ∀ (s : AppState) (saleId : String) (lines : List ReturnLine) (ts : Nat)
      (sa : Sale) (item : SaleItem) (ri : ReturnLine),
      isAdmin s = true → sa ∈ s.sales → (sa.id == saleId) = true → item ∈ sa.items →
      lines.find? (fun r => r.productId == item.productId) = some ri →
      retSaleUpdate saleId lines sa ∈ (processReturn saleId lines ts s).sales
        ∧ retItemUpdate lines item ∈ (retSaleUpdate saleId lines sa).items
        ∧ (retItemUpdate lines item).returnedQuantity
            = some (item.returnedQuantity.getD 0 + ri.quantity)
        ∧ (item.quantity - item.returnedQuantity.getD 0 < ri.quantity →
            item.quantity < (retItemUpdate lines item).returnedQuantity.getD 0) := by
  intro s saleId lines ts sa item ri hadmin hsa hid hitem hfind
  refine ⟨?_, ?_, ?_, ?_⟩
  · simp only [processReturn, hadmin, Bool.not_true, if_false]
    exact List.mem_map_of_mem (retSaleUpdate saleId lines) hsa
  · simp only [retSaleUpdate, hid, if_true]
    exact List.mem_map_of_mem (retItemUpdate lines) hitem
  · simp [retItemUpdate, hfind]
  · intro hlt
    simp only [retItemUpdate, hfind, Option.getD_some]
    omega

/-- C3 (witness): the amended statement at the concrete excessive return
(quantity 2, nothing returned, request 5). -/
theorem C3_witness :
    (isAdmin (demoState [demoProduct "p1" 3] [soldSale]) = true
      ∧ soldSale ∈ (demoState [demoProduct "p1" 3] [soldSale]).sales
      ∧ demoItem "p1" 2 ∈ soldSale.items)
    ∧ ((retItemUpdate [{ productId := "p1", quantity := 5 }] (demoItem "p1" 2)).returnedQuantity
          = some 5
        ∧ ((demoItem "p1" 2).quantity - (demoItem "p1" 2).returnedQuantity.getD 0 < 5 →
            (demoItem "p1" 2).quantity
              < (retItemUpdate [{ productId := "p1", quantity := 5 }]
                  (demoItem "p1" 2)).returnedQuantity.getD 0)) :=
  ⟨⟨rfl, by simp [demoState], by simp [soldSale, demoSale, handleFinish]⟩,
    (C3_processReturn_unchecked (demoState [demoProduct "p1" 3] [soldSale]) "S1"
        [{ productId := "p1", quantity := 5 }] 9 soldSale (demoItem "p1" 2)
        { productId := "p1", quantity := 5 } rfl
        (by simp [demoState]) rfl
        (by simp [soldSale, demoSale, handleFinish]) rfl).2.2.1,
    fun hlt => ((C3_processReturn_unchecked (demoState [demoProduct "p1" 3] [soldSale]) "S1"
        [{ productId := "p1", quantity := 5 }] 9 soldSale (demoItem "p1" 2)
        { productId := "p1", quantity := 5 } rfl
        (by simp [demoState]) rfl
        (by simp [soldSale, demoSale, handleFinish]) rfl).2.2.2 hlt)⟩

/-- C4 (counterexample): `restockProduct` has no positivity check.  A restock
of -5 on stock 10 does not fail with `InvalidQuantity` and does not leave the
state unchanged: the stock drops to 5 and a RESTOCK movement of amount -5 is
appended. -/
theorem C4_counterexample :
    ((restockProduct "p1" (-5) 9 (demoState [demoProduct "p1" 10] [])).products.map
        (fun p => p.stock)) = [5]
    ∧ ((restockProduct "p1" (-5) 9 (demoState [demoProduct "p1" 10] [])).products.map
        (fun p => p.stockHistory.head?.map (fun l => (l.typ, l.amount)))) =
        [some (LogType.RESTOCK, -5)] :=
  ⟨by decide, by decide⟩

/-- C4 (amended): for ANY amount — positive, zero or negative —
`restockProduct` (as an ADMIN) adds the amount to the matched product's stock,
appends a RESTOCK movement of that amount, and sets `lastRestocked`; there is
no `InvalidQuantity` failure path. -/
theorem C4_restock_unchecked :
    ∀ (s : AppState) (id : String) (amount : Int) (ts : Nat) (p : Product),
      isAdmin s = true → p ∈ s.products → (p.id == id) = true →
      restockUpdate id amount ts p ∈ (restockProduct id amount ts s).products
        ∧ (restockUpdate id amount ts p).stock = p.stock + amount
        ∧ (restockUpdate id amount ts p).stockHistory
            = ({ typ := .RESTOCK, amount := amount, balance := p.stock + amount,
                 timestamp := ts } : StockLog) :: p.stockHistory
        ∧ (restockUpdate id amount ts p).lastRestocked = ts := by
  intro s id amount ts p hadmin hp hid
  refine ⟨?_, ?_, ?_, ?_⟩
  · simp only [restockProduct, hadmin, Bool.not_true, if_false]
    exact List.mem_map_of_mem (restockUpdate id amount ts) hp
  · simp [restockUpdate, hid]
  · simp [restockUpdate, hid]
  · simp [restockUpdate, hid]

/-- C4 (witness): the amended statement at the concrete negative restock. -/
theorem C4_witness :
    (isAdmin (demoState [demoProduct "p1" 10] []) = true
      ∧ demoProduct "p1" 10 ∈ (demoState [demoProduct "p1" 10] []).products)
    ∧ (restockUpdate "p1" (-5) 9 (demoProduct "p1" 10)).stock = 5
    ∧ (restockUpdate "p1" (-5) 9 (demoProduct "p1" 10)).lastRestocked = 9 :=
  ⟨⟨rfl, by simp [demoState]⟩,
    by rw [(C4_restock_unchecked (demoState [demoProduct "p1" 10] []) "p1" (-5) 9
        (demoProduct "p1" 10) rfl (by simp [demoState]) rfl).2.1]; decide,
    (C4_restock_unchecked (demoState [demoProduct "p1" 10] []) "p1" (-5) 9
        (demoProduct "p1" 10) rfl (by simp [demoState]) rfl).2.2.2⟩

/-- C5 (confirmed): `adjustStock` (as an ADMIN) accepts any signed amount —
there is no failure path — and the matched product's resulting stock is
`max 0 (previous stock + amount)` (clamped at 0, never rejected), with an
ADJUSTMENT movement recorded carrying the requested amount, the clamped
balance and the reason. -/
theorem C5_adjust_clamps :
    ∀ (s : AppState) (id : String) (amount : Int) (reason : String) (ts : Nat) (p : Product),
      isAdmin s = true → p ∈ s.products → (p.id == id) = true →
      adjustStockOne id amount reason ts p ∈ (adjustStock id amount reason ts s).products
        ∧ (adjustStockOne id amount reason ts p).stock = max 0 (p.stock + amount)
        ∧ 0 ≤ (adjustStockOne id amount reason ts p).stock
        ∧ (adjustStockOne id amount reason ts p).stockHistory
            = ({ typ := .ADJUSTMENT, amount := amount, balance := max 0 (p.stock + amount),
                 timestamp := ts, reason := some reason } : StockLog) :: p.stockHistory := by
  intro s id amount reason ts p hadmin hp hid
  refine ⟨?_, ?_, ?_, ?_⟩
  · simp only [adjustStock, hadmin, Bool.not_true, if_false]
    exact List.mem_map_of_mem (adjustStockOne id amount reason ts) hp
  · simp [adjustStockOne, hid]
  · simp only [adjustStockOne, hid, if_true]
    exact le_max_left 0 _
  · simp [adjustStockOne, hid]

/-- C5 (witness): a clamping adjustment of -10 on stock 5 succeeds and lands
on stock 0. -/
theorem C5_witness :
    (isAdmin (demoState [demoProduct "p1" 5] []) = true
      ∧ demoProduct "p1" 5 ∈ (demoState [demoProduct "p1" 5] []).products)
    ∧ (adjustStockOne "p1" (-10) "shrinkage" 3 (demoProduct "p1" 5)).stock = 0
    ∧ 0 ≤ (adjustStockOne "p1" (-10) "shrinkage" 3 (demoProduct "p1" 5)).stock :=
  ⟨⟨rfl, by simp [demoState]⟩,
    by rw [(C5_adjust_clamps (demoState [demoProduct "p1" 5] []) "p1" (-10) "shrinkage" 3
        (demoProduct "p1" 5) rfl (by simp [demoState]) rfl).2.1]; decide,
    (C5_adjust_clamps (demoState [demoProduct "p1" 5] []) "p1" (-10) "shrinkage" 3
        (demoProduct "p1" 5) rfl (by simp [demoState]) rfl).2.2.1⟩


/-! ## POS totals, lastRestocked, and processReturn store independence -/

theorem foldl_add_total : ∀ (cart : List SaleItem) (a : Rat),
    cart.foldl (fun acc item => acc + item.total) a
      = a + (cart.map (fun i => i.total)).sum
  | [], a => by simp
  | i :: rest, a => by
    simp only [List.foldl_cons, List.map_cons, List.sum_cons]
    rw [foldl_add_total rest (a + i.total)]
    ring

theorem cartSubtotal_eq_sum (cart : List SaleItem) :
    cartSubtotal cart = (cart.map (fun i => i.total)).sum := by
  unfold cartSubtotal
  rw [foldl_add_total cart 0, zero_add]

/-- C6 (confirmed): `handleFinish` computes `tax` as exactly 5% of the
subtotal and `total = subtotal + tax`, where the subtotal is the sum of the
cart's line totals (each maintained as quantity × unit price); in particular
one line of quantity 3 at unit price 10 yields total 31.5 = 63/2. -/
theorem C6_tax_five_percent :
    (∀ (cart : List SaleItem) (saleId : String) (ts : Nat)
        (nm ad ph : String) (pm : PaymentMethod),
        (handleFinish cart saleId ts nm ad ph pm).tax
            = (handleFinish cart saleId ts nm ad ph pm).subtotal * (5 / 100 : Rat)
          ∧ (handleFinish cart saleId ts nm ad ph pm).total
            = (handleFinish cart saleId ts nm ad ph pm).subtotal
              + (handleFinish cart saleId ts nm ad ph pm).tax)
    ∧ (∀ cart : List SaleItem, (∀ i ∈ cart, i.total = (i.quantity : Rat) * i.price) →
        cartSubtotal cart = (cart.map (fun i => (i.quantity : Rat) * i.price)).sum)
    ∧ (demoSale "p1" 3).total = 63 / 2 := by
  refine ⟨?_, ?_, ?_⟩
  · intro cart saleId ts nm ad ph pm
    exact ⟨rfl, rfl⟩
  · intro cart h
    rw [cartSubtotal_eq_sum]
    congr 1
    exact List.map_congr_left h
  · show cartTotal [demoItem "p1" 3] = 63 / 2
    norm_num [demoItem, cartTotal, cartTax, cartSubtotal, taxRate]

/-- C6 (witness): the line-total hypothesis holds for the concrete one-line
cart, and the theorem computes its subtotal as the sum of quantity × price. -/
theorem C6_witness :
    (∀ i ∈ [demoItem "p1" 3], i.total = (i.quantity : Rat) * i.price)
    ∧ cartSubtotal [demoItem "p1" 3]
        = ([demoItem "p1" 3].map (fun i => (i.quantity : Rat) * i.price)).sum :=
  ⟨by simp [demoItem],
    C6_tax_five_percent.2.1 [demoItem "p1" 3] (by simp [demoItem])⟩

/-- C8 (counterexample): a `processReturn` at clock 99 appends a RESTOCK
movement to the matched product yet leaves `lastRestocked` at its old value 0
(it would have to be 99 for the claim to hold). -/
theorem C8_counterexample :
    ((processReturn "S1" [{ productId := "p1", quantity := 1 }] 99
        (demoState [demoProduct "p1" 3] [soldSale])).products.map
        (fun p => (p.lastRestocked, p.stockHistory.head?.map (fun l => l.typ))))
      = [(0, some LogType.RESTOCK)] := by decide

/-- C8 (amended): `restockProduct` both appends a RESTOCK movement and sets
`lastRestocked` to the operation's timestamp, but the per-line restock done by
`processReturn` appends its RESTOCK movement WITHOUT touching `lastRestocked`. -/
theorem C8_lastRestocked :
    ∀ (id : String) (amount : Int) (ts : Nat) (p : Product)
      (saleId : String) (ret : ReturnLine),
      ((p.id == id) = true →
        (restockUpdate id amount ts p).lastRestocked = ts
        ∧ (restockUpdate id amount ts p).stockHistory.head?.map (fun l => l.typ)
            = some LogType.RESTOCK)
      ∧ (returnLineUpdate saleId ret ts p).lastRestocked = p.lastRestocked
      ∧ ((p.id == ret.productId) = true →
          (returnLineUpdate saleId ret ts p).stockHistory.head?.map (fun l => l.typ)
            = some LogType.RESTOCK) := by
  intro id amount ts p saleId ret
  refine ⟨fun hid => ⟨?_, ?_⟩, ?_, fun hid => ?_⟩
  · simp [restockUpdate, hid]
  · simp [restockUpdate, hid]
  · unfold returnLineUpdate
    by_cases hid : (p.id == ret.productId) = true <;> simp [hid]
  · simp [returnLineUpdate, hid]

/-- C8 (witness): the amended statement at clock 9 (restock) and clock 99
(return); the returned-to product keeps `lastRestocked = 0`. -/
theorem C8_witness :
    ((demoProduct "p1" 3).id == "p1") = true
    ∧ (restockUpdate "p1" 4 9 (demoProduct "p1" 3)).lastRestocked = 9
    ∧ (returnLineUpdate "S1" { productId := "p1", quantity := 1 } 99
        (demoProduct "p1" 3)).lastRestocked = (demoProduct "p1" 3).lastRestocked :=
  ⟨rfl,
    ((C8_lastRestocked "p1" 4 9 (demoProduct "p1" 3) "S1"
        { productId := "p1", quantity := 1 }).1 rfl).1,
    (C8_lastRestocked "p1" 4 9 (demoProduct "p1" 3) "S1"
        { productId := "p1", quantity := 1 }).2.1⟩

theorem retFold_eq_map (saleId : String) (ts : Nat) :
    ∀ (lines : List ReturnLine) (ps : List Product),
      lines.foldl (fun acc ret => acc.map (returnLineUpdate saleId ret ts)) ps
        = ps.map (retProductFold saleId lines ts)
  | [], ps => by
    simp only [List.foldl_nil]
    exact (List.map_id ps).symm
  | ret :: rest, ps => by
    simp only [List.foldl_cons]
    rw [retFold_eq_map saleId ts rest (ps.map (returnLineUpdate saleId ret ts)), List.map_map]
    rfl

theorem retProductFold_spec (saleId : String) (ts : Nat) :
    ∀ (lines : List ReturnLine) (p : Product),
      (retProductFold saleId lines ts p).id = p.id
      ∧ (retProductFold saleId lines ts p).stock
          = p.stock + ((lines.filter (fun r => p.id == r.productId)).map
              (fun r => r.quantity)).sum
      ∧ (retProductFold saleId lines ts p).lastRestocked = p.lastRestocked
      ∧ ∃ newLogs : List StockLog,
          (retProductFold saleId lines ts p).stockHistory = newLogs ++ p.stockHistory
          ∧ newLogs.length = (lines.filter (fun r => p.id == r.productId)).length
          ∧ ∀ log ∈ newLogs, log.typ = LogType.RESTOCK
  | [], p => ⟨rfl, by simp [retProductFold], rfl, [], rfl, by simp, by simp⟩
  | ret :: rest, p => by
    by_cases hm : (p.id == ret.productId) = true
    · have hstep : retProductFold saleId (ret :: rest) ts p
          = retProductFold saleId rest ts (returnLineUpdate saleId ret ts p) := rfl
      have hp1id : (returnLineUpdate saleId ret ts p).id = p.id := by
        simp [returnLineUpdate, hm]
      have hp1stock : (returnLineUpdate saleId ret ts p).stock = p.stock + ret.quantity := by
        simp [returnLineUpdate, hm]
      have hp1last : (returnLineUpdate saleId ret ts p).lastRestocked = p.lastRestocked := by
        simp [returnLineUpdate, hm]
      have hp1hist : (returnLineUpdate saleId ret ts p).stockHistory
          = ({ typ := .RESTOCK, amount := ret.quantity, balance := p.stock + ret.quantity,
               timestamp := ts,
               reason := some ("Return from Sale #" ++ saleId.drop (saleId.length - 6)) }
              : StockLog) :: p.stockHistory := by
        simp [returnLineUpdate, hm]
      obtain ⟨hid, hstock, hlast, newLogs, hhist, hlen, htyp⟩ :=
        retProductFold_spec saleId ts rest (returnLineUpdate saleId ret ts p)
      simp only [hp1id] at hid hstock hlen
      rw [hstep]
      refine ⟨hid, ?_, hlast.trans hp1last,
        newLogs ++ [({ typ := .RESTOCK, amount := ret.quantity,
                       balance := p.stock + ret.quantity, timestamp := ts,
                       reason := some ("Return from Sale #"
                         ++ saleId.drop (saleId.length - 6)) } : StockLog)], ?_, ?_, ?_⟩
      · rw [hstock, hp1stock]
        simp only [List.filter_cons, hm, if_true, List.map_cons, List.sum_cons]
        ring
      · rw [hhist, hp1hist, List.append_cons]
      · simp only [List.length_append, List.length_cons, List.length_nil, hlen,
          List.filter_cons, hm, if_true]
      · intro log hlog
        rcases List.mem_append.mp hlog with h | h
        · exact htyp log h
        · rw [List.mem_singleton.mp h]
    · have hp1 : returnLineUpdate saleId ret ts p = p := by
        simp [returnLineUpdate, hm]
      have hstep : retProductFold saleId (ret :: rest) ts p
          = retProductFold saleId rest ts p := by
        show retProductFold saleId rest ts (returnLineUpdate saleId ret ts p) = _
        rw [hp1]
      obtain ⟨hid, hstock, hlast, newLogs, hhist, hlen, htyp⟩ :=
        retProductFold_spec saleId ts rest p
      rw [hstep]
      refine ⟨hid, ?_, hlast, newLogs, hhist, ?_, htyp⟩
      · rw [hstock]
        simp [List.filter_cons, hm]
      · rw [hlen]
        simp [List.filter_cons, hm]

/-- C9 (confirmed): `processReturn` updates the sale store and the product
store independently, not as one unit.  If the saleId matches no stored sale
the sale store is untouched; if no requested line matches any item of a sale
that sale is unchanged; yet in every case the product store receives, for
each product, a stock increase equal to the sum of its matching requested
quantities along with one RESTOCK movement per matching line. -/
theorem C9_stores_updated_independently :
    ∀ (s : AppState) (saleId : String) (lines : List ReturnLine) (ts : Nat),
      isAdmin s = true →
      ((∀ sa ∈ s.sales, (sa.id == saleId) = false) →
          (processReturn saleId lines ts s).sales = s.sales)
      ∧ (∀ sa ∈ s.sales,
          (∀ item ∈ sa.items,
            lines.find? (fun r => r.productId == item.productId) = none) →
          retSaleUpdate saleId lines sa = sa)
      ∧ (processReturn saleId lines ts s).products
          = s.products.map (retProductFold saleId lines ts)
      ∧ (∀ p ∈ s.products,
          (retProductFold saleId lines ts p).stock
            = p.stock + ((lines.filter (fun r => p.id == r.productId)).map
                (fun r => r.quantity)).sum
          ∧ ∃ newLogs : List StockLog,
              (retProductFold saleId lines ts p).stockHistory = newLogs ++ p.stockHistory
              ∧ newLogs.length = (lines.filter (fun r => p.id == r.productId)).length
              ∧ ∀ log ∈ newLogs, log.typ = LogType.RESTOCK) := by
  intro s saleId lines ts hadmin
  refine ⟨?_, ?_, ?_, ?_⟩
  · intro hnone
    simp only [processReturn, hadmin, Bool.not_true, Bool.false_eq_true, if_false]
    have : ∀ sa ∈ s.sales, retSaleUpdate saleId lines sa = sa := by
      intro sa hsa
      simp [retSaleUpdate, hnone sa hsa]
    calc s.sales.map (retSaleUpdate saleId lines)
        = s.sales.map id := List.map_congr_left this
      _ = s.sales := List.map_id s.sales
  · intro sa _ hnone
    unfold retSaleUpdate
    by_cases hid : (sa.id == saleId) = true
    · simp only [hid, if_true]
      have hitems : sa.items.map (retItemUpdate lines) = sa.items := by
        have hall : ∀ item ∈ sa.items, retItemUpdate lines item = id item := by
          intro item hitem
          simp [retItemUpdate, hnone item hitem]
        rw [List.map_congr_left hall, List.map_id]
      rw [hitems]
    · simp [hid]
  · simp only [processReturn, hadmin, Bool.not_true, Bool.false_eq_true, if_false]
    exact retFold_eq_map saleId ts lines s.products
  · intro p _
    obtain ⟨_, hstock, _, hlogs⟩ := retProductFold_spec saleId ts lines p
    exact ⟨hstock, hlogs⟩

/-- C9 (witness): a return addressed to the unknown sale id leaves the sale
store unchanged while still restocking the matched product. -/
theorem C9_witness :
    (isAdmin (demoState [demoProduct "p1" 3] [soldSale]) = true
      ∧ (∀ sa ∈ (demoState [demoProduct "p1" 3] [soldSale]).sales, (sa.id == "NOPE") = false))
    ∧ (processReturn "NOPE" [{ productId := "p1", quantity := 2 }] 9
        (demoState [demoProduct "p1" 3] [soldSale])).sales
        = (demoState [demoProduct "p1" 3] [soldSale]).sales
    ∧ (retProductFold "NOPE" [{ productId := "p1", quantity := 2 }] 9
        (demoProduct "p1" 3)).stock
        = (demoProduct "p1" 3).stock
          + (([({ productId := "p1", quantity := 2 } : ReturnLine)].filter
              (fun r => (demoProduct "p1" 3).id == r.productId)).map
              (fun r => r.quantity)).sum :=
  ⟨⟨rfl, by decide⟩,
    (C9_stores_updated_independently (demoState [demoProduct "p1" 3] [soldSale]) "NOPE"
        [{ productId := "p1", quantity := 2 }] 9 rfl).1 (by decide),
    ((C9_stores_updated_independently (demoState [demoProduct "p1" 3] [soldSale]) "NOPE"
        [{ productId := "p1", quantity := 2 }] 9 rfl).2.2.2 (demoProduct "p1" 3)
        (by simp [demoState])).1⟩

/-- C10 (confirmed): every state-mutating operation except `completeSale` and
`saveCustomer` — restock, adjustStock, processReturn, addProduct,
updateProduct, bulkUpdateProducts, deleteProduct and the three category
operations — is a no-op (the whole state, hence all products, sales,
customers and categories, is returned unchanged) whenever the current user is
not an ADMIN, while `completeSale` prepends the sale and rewrites the product
stocks regardless of the caller's role. -/
theorem C10_role_gating :
    ∀ (s : AppState),
      (isAdmin s = false →
        (∀ id amount ts, restockProduct id amount ts s = s)
        ∧ (∀ id amount reason ts, adjustStock id amount reason ts s = s)
        ∧ (∀ saleId lines ts, processReturn saleId lines ts s = s)
        ∧ (∀ p ts, addProduct p ts s = s)
        ∧ (∀ p ts, updateProduct p ts s = s)
        ∧ (∀ ids u, bulkUpdateProducts ids u s = s)
        ∧ (∀ id, deleteProduct id s = s)
        ∧ (∀ n, addCategory n s = s)
        ∧ (∀ o n, renameCategory o n s = s)
        ∧ (∀ n, deleteCategory n s = s))
      ∧ (∀ (sale : Sale) (ts : Nat),
          (completeSale sale ts s).sales
            = { sale with processedBy := s.currentUser.map (fun u => u.fullName) } :: s.sales
          ∧ (completeSale sale ts s).products = s.products.map (saleLineUpdate sale ts)
          ∧ ∀ p ∈ s.products, ∀ item : SaleItem,
              sale.items.find? (fun it => it.productId == p.id) = some item →
              (saleLineUpdate sale ts p).stock = p.stock - item.quantity) := by
  intro s
  constructor
  · intro h
    refine ⟨?_, ?_, ?_, ?_, ?_, ?_, ?_, ?_, ?_, ?_⟩ <;> intros <;>
      simp [restockProduct, adjustStock, processReturn, addProduct, updateProduct,
        bulkUpdateProducts, deleteProduct, addCategory, renameCategory, deleteCategory, h]
  · intro sale ts
    refine ⟨rfl, rfl, ?_⟩
    intro p _ item hfind
    simp [saleLineUpdate, hfind]

/-- C10 (witness): with a SALESPERSON logged in, restocking and returning are
no-ops while `completeSale` still records the sale. -/
theorem C10_witness :
    isAdmin clerkState = false
    ∧ restockProduct "p1" 5 1 clerkState = clerkState
    ∧ processReturn "S1" [{ productId := "p1", quantity := 1 }] 2 clerkState = clerkState
    ∧ (completeSale (demoSale "p1" 1) 3 clerkState).sales.length
        = clerkState.sales.length + 1 :=
  ⟨rfl,
    ((C10_role_gating clerkState).1 rfl).1 "p1" 5 1,
    ((C10_role_gating clerkState).1 rfl).2.2.1 "S1" [{ productId := "p1", quantity := 1 }] 2,
    by rw [((C10_role_gating clerkState).2 (demoSale "p1" 1) 3).1]; rfl⟩


/-- C7 (confirmed): the product query's multi-key sort is stable and
lexicographic over the active key list: with zero active keys the filtered
input is returned in its original relative order; `handleSort` cycles a
single key from ascending to descending, and with no ties the descending
result is exactly the reverse of the ascending result; and products that tie
after exhausting all active keys keep their input relative order (stability
of the sort, stated as sublist preservation of tied pairs). -/
theorem C7_query_sort :
    (∀ (ps : List Product) (term cat : String),
        filteredProducts ps term cat []
          = ps.filter (fun p => matchesSearch term p && matchesCategory cat p))
    ∧ (∀ k : SortKey, handleSort k false [{ key := k, direction := some .asc }]
          = [{ key := k, direction := some .desc }])
    ∧ (∀ (ps : List Product) (term cat : String) (k : SortKey),
        (ps.filter (fun p => matchesSearch term p && matchesCategory cat p)).Pairwise
            (fun x y => cmpBy [{ key := k, direction := some .asc }] x y ≠ .eq) →
        filteredProducts ps term cat [{ key := k, direction := some .desc }]
          = (filteredProducts ps term cat [{ key := k, direction := some .asc }]).reverse)
    ∧ (∀ (ps : List Product) (term cat : String) (cfgs : List SortConfig) (a b : Product),
        cmpBy cfgs a b = .eq →
        [a, b].Sublist (ps.filter (fun p => matchesSearch term p && matchesCategory cat p)) →
        [a, b].Sublist (filteredProducts ps term cat cfgs)) := by
  refine ⟨?_, ?_, ?_, ?_⟩
  · intro ps term cat
    rfl
  · intro k
    cases k <;> rfl
  · intro ps term cat k hnt
    have h1 : filteredProducts ps term cat [{ key := k, direction := some .desc }]
        = (ps.filter (fun p => matchesSearch term p && matchesCategory cat p)).mergeSort
            (sortLe [{ key := k, direction := some .desc }]) := rfl
    have h2 : filteredProducts ps term cat [{ key := k, direction := some .asc }]
        = (ps.filter (fun p => matchesSearch term p && matchesCategory cat p)).mergeSort
            (sortLe [{ key := k, direction := some .asc }]) := rfl
    rw [h1, h2]
    exact mergeSort_desc_eq_reverse k _ hnt
  · intro ps term cat cfgs a b heq hsub
    simp only [filteredProducts]
    by_cases hlen : cfgs.length > 0
    · rw [if_pos hlen]
      refine List.pair_sublist_mergeSort (fun x y z => sortLe_trans cfgs x y z)
        (fun x y => sortLe_total cfgs x y) ?_ hsub
      show (cmpBy cfgs a b != Ordering.gt) = true
      rw [heq]
      rfl
    · rw [if_neg hlen]
      exact hsub

/-- C7 (witness): on a concrete three-product catalog, the no-ties hypothesis
holds for the `stock` key and the theorem yields the asc/desc mirror; two
products tied on `category` stay in input order in the sorted output. -/
theorem C7_witness :
    ((demoCatalog.filter (fun p => matchesSearch "" p && matchesCategory "All" p)).Pairwise
        (fun x y => cmpBy [{ key := SortKey.stock, direction := some .asc }] x y ≠ .eq)
      ∧ filteredProducts demoCatalog "" "All"
            [{ key := SortKey.stock, direction := some .desc }]
          = (filteredProducts demoCatalog "" "All"
              [{ key := SortKey.stock, direction := some .asc }]).reverse)
    ∧ (cmpBy [{ key := SortKey.category, direction := some SortDir.asc }]
          (demoProduct "a" 3) (demoProduct "c" 4) = .eq
      ∧ [demoProduct "a" 3, demoProduct "c" 4].Sublist
          (filteredProducts demoCatalog "" "All"
            [{ key := SortKey.category, direction := some SortDir.asc }])) :=
  ⟨⟨by decide,
    C7_query_sort.2.2.1 demoCatalog "" "All" SortKey.stock (by decide)⟩,
    ⟨by decide,
      C7_query_sort.2.2.2 demoCatalog "" "All"
        [{ key := SortKey.category, direction := some SortDir.asc }]
        (demoProduct "a" 3) (demoProduct "c" 4) (by decide) (by decide)⟩⟩

end SK



